import Mathlib

/-!
Shallow embedding of the Crypto trading bot (Python) for specification checking.

Sources embedded here:
  * `src/models.py`       — `Candle`, `Trade`, `Contract` (bitmex multiplier logic)
  * `src/strategies.py`   — `Strategy.parse_trades`, `Strategy._check_tp_sl`,
                            `Strategy._open_position`, `TechnicalStrategy.check_trade`,
                            `BreakoutStrategy._check_signal`, `BreakoutStrategy.check_trade`
  * `src/connectors/binance.py` — `_make_request`, `get_trade_size`, `subscribe_channel`,
                            `_on_open`, the bookTicker PnL update in `_on_message`
  * `src/connectors/bitmex.py`  — `get_trade_size`, the instrument PnL update in `_on_message`

Python floats are modelled by exact rationals (ℚ), Unix millisecond timestamps by ℤ.
External I/O (REST calls, order placement, balance queries, wall-clock time) is passed
in explicitly as oracle/environment values, so that the control flow of the Python code
becomes a pure function of the state and of those oracles.
-/

namespace Crypto

/-- One OHLCV candlestick (`models.py`, class `Candle`, `parse_trade` branch:
fields `ts/open/high/low/close/volume`). -/
structure Candle where
  timestamp : ℤ
  open_ : ℚ
  high : ℚ
  low : ℚ
  close : ℚ
  volume : ℚ
deriving DecidableEq, Repr

/-- The fields of `models.Contract` used by the strategy and PnL logic.
`multiplier` is the value computed in `Contract.__init__` (bitmex branch). -/
structure Contract where
  symbol : String
  base_asset : String
  quote_asset : String
  lot_size : ℚ
  inverse : Bool
  quanto : Bool
  multiplier : ℚ
deriving DecidableEq, Repr

/-- `models.py`: `BITMEX_MULTIPLIER = 0.00000001` (satoshi → XBT). -/
def BITMEX_MULTIPLIER : ℚ := 1 / 100000000

/-- `models.Contract.__init__`, bitmex branch, lines 110–113:
`self.multiplier = contract_info['multiplier'] * BITMEX_MULTIPLIER;
if self.inverse: self.multiplier *= -1`. -/
def bitmexContractMultiplier (rawMultiplier : ℚ) (isInverse : Bool) : ℚ :=
  let m := rawMultiplier * BITMEX_MULTIPLIER
  if isInverse then m * (-1) else m

/-- The fields of `models.OrderStatus` used by the strategy logic. -/
structure OrderStatusM where
  order_id : ℕ
  status : String
  avg_price : ℚ
  executed_qty : ℚ
deriving DecidableEq, Repr

/-- `models.Trade`: one trade record kept in `Strategy.trades`.
`entry_price` is `Option ℚ` because `_open_position` stores Python `None`
until the entry order is filled. -/
structure Trade where
  time : ℤ
  contract : Contract
  strategy : String
  side : String
  entry_price : Option ℚ
  status : String
  pnl : ℚ
  quantity : ℚ
  entry_id : ℕ
deriving DecidableEq, Repr

/-- The mutable per-instance state of `strategies.Strategy`
(`__init__`: `tf_equiv`, `balance_pct`, `take_profit`, `stop_loss`,
`ongoing_position`, `candles`, `trades`).  `take_profit`/`stop_loss` are
`Option ℚ` because `_check_tp_sl` guards them with `is not None`. -/
structure StrategyState where
  tf_equiv : ℤ
  balance_pct : ℚ
  take_profit : Option ℚ
  stop_loss : Option ℚ
  ongoing_position : Bool
  candles : List Candle
  trades : List Trade
deriving DecidableEq, Repr

/-- The connector attributes read by the strategy code:
`client.platform` and `client.futures`. -/
structure ClientEnv where
  platform : String
  futures : Bool
deriving DecidableEq, Repr

/-- Environment (oracle) for one `_check_tp_sl` call: the result of
`client.place_order(...)` and, for the Binance-Spot branch, the free balance of
the contract's base asset (`None` models `get_balances()` returning `None` or
the base asset being absent from it). -/
structure TpSlEnv where
  orderResult : Option OrderStatusM
  spotFree : Option ℚ
deriving DecidableEq, Repr

/-- Environment (oracle) for one `_open_position` call: the result of
`client.get_trade_size(...)`, the result of `client.place_order(...)`, and the
wall-clock `int(time.time() * 1000)` used for the new `Trade`'s `time` field. -/
structure OpenEnv where
  tradeSize : Option ℚ
  orderResult : Option OrderStatusM
  now : ℤ
deriving DecidableEq, Repr

/-- `strategies.Strategy.parse_trades`, same-candle branch, lines 68–74:
update the last candle in place (`close = price; volume += size;
if price > high: high = price elif price < low: low = price`). -/
def updCandle (c : Candle) (price size : ℚ) : Candle :=
  let c1 := { c with close := price, volume := c.volume + size }
  if price > c.high then { c1 with high := price }
  else if price < c.low then { c1 with low := price }
  else c1

/-- A synthetic flat candle produced by the missing-candle loop of
`parse_trades`: `open = high = low = close = previous close, volume = 0`. -/
def flatCandle (ts : ℤ) (closePrev : ℚ) : Candle :=
  ⟨ts, closePrev, closePrev, closePrev, closePrev, 0⟩

/-- `strategies.Strategy.parse_trades`, lines 93–101: the
`for missing in range(missing_candles)` loop.  Appends `n` synthetic flat
candles, each one bucket width `W` after the previous `last_candle`, and
returns the grown list together with the final `last_candle`. -/
def appendMissing (cands : List Candle) (last_candle : Candle) (W : ℤ) : ℕ → List Candle × Candle
  | 0 => (cands, last_candle)
  | n + 1 =>
    let new_candle := flatCandle (last_candle.timestamp + W) last_candle.close
    appendMissing (cands ++ [new_candle]) new_candle W n

/-- `strategies.Strategy._check_tp_sl` (lines 190–238) for a trade whose
`entry_price` is `some entry` (the caller guards `is not None`).
Returns the updated trade, whether the trade was closed (which in the source
also clears `self.ongoing_position`), and the list of market orders submitted
(`(side, quantity)` of each `client.place_order` call). -/
def check_tp_sl (cl : ClientEnv) (take_profit stop_loss : Option ℚ) (price : ℚ)
    (t : Trade) (entry : ℚ) (env : TpSlEnv) : Trade × Bool × List (String × ℚ) :=
  let sl_triggered : Bool :=
    if t.side = "long" then
      match stop_loss with
      | some v => decide (price ≤ entry * (1 - v / 100))
      | none => false
    else if t.side = "short" then
      match stop_loss with
      | some v => decide (price ≥ entry * (1 + v / 100))
      | none => false
    else false
  let tp_triggered : Bool :=
    if t.side = "long" then
      match take_profit with
      | some v => decide (price ≥ entry * (1 + v / 100))
      | none => false
    else if t.side = "short" then
      match take_profit with
      | some v => decide (price ≤ entry * (1 - v / 100))
      | none => false
    else false
  if tp_triggered || sl_triggered then
    let order_side := if t.side = "long" then "SELL" else "BUY"
    -- Binance Spot only: cap the sell quantity by the available base-asset balance
    let qty : ℚ :=
      if cl.futures = false ∧ order_side = "SELL" then
        match env.spotFree with
        | some free => min free t.quantity
        | none => t.quantity
      else t.quantity
    let t1 := { t with quantity := qty }
    match env.orderResult with
    | some _ => ({ t1 with status := "closed" }, true, [(order_side, qty)])
    | none => (t1, false, [(order_side, qty)])
  else (t, false, [])

/-- `strategies.Strategy.parse_trades`, lines 78–80: the
`for trade in self.trades: if trade.status == "open" and trade.entry_price is
not None: self._check_tp_sl(trade)` loop.  Threads the `ongoing_position`
flag (cleared by `_check_tp_sl` when it closes a trade); `env i` is the
oracle for the `i`-th trade's `_check_tp_sl` call.  Returns the updated
trades, the final flag and all submitted orders. -/
def tpSlLoop (cl : ClientEnv) (take_profit stop_loss : Option ℚ) (price : ℚ)
    (env : ℕ → TpSlEnv) : List Trade → ℕ → Bool → List Trade × Bool × List (String × ℚ)
  | [], _, ongoing => ([], ongoing, [])
  | t :: rest, i, ongoing =>
    if t.status = "open" then
      match t.entry_price with
      | some e =>
        let r := check_tp_sl cl take_profit stop_loss price t e (env i)
        let rec' := tpSlLoop cl take_profit stop_loss price env rest (i + 1)
          (if r.2.1 then false else ongoing)
        (r.1 :: rec'.1, rec'.2.1, r.2.2 ++ rec'.2.2)
      | none =>
        let rec' := tpSlLoop cl take_profit stop_loss price env rest (i + 1) ongoing
        (t :: rec'.1, rec'.2.1, rec'.2.2)
    else
      let rec' := tpSlLoop cl take_profit stop_loss price env rest (i + 1) ongoing
      (t :: rec'.1, rec'.2.1, rec'.2.2)

/-- Result of one `parse_trades` call: the new strategy state, the Python
return value (`none` models the implicit Python `None` of a fall-through),
and the market orders submitted during the call. -/
structure ParseResult where
  state : StrategyState
  res : Option String
  orders : List (String × ℚ)
deriving DecidableEq, Repr

/-- `strategies.Strategy.parse_trades` (lines 47–122).  The outer `Option` is
`none` exactly when `self.candles[-1]` raises `IndexError` (empty candle
list); `ParseResult.res` is the Python return value. -/
def parse_trades (cl : ClientEnv) (s : StrategyState) (price size : ℚ) (timestamp : ℤ)
    (env : ℕ → TpSlEnv) : Option ParseResult :=
  match s.candles.getLast? with
  | none => none
  | some last_candle =>
    if timestamp < last_candle.timestamp + s.tf_equiv then
      -- Same Candle
      let last' := updCandle last_candle price size
      let r := tpSlLoop cl s.take_profit s.stop_loss last'.close env s.trades 0 s.ongoing_position
      some ⟨{ s with
                candles := s.candles.dropLast ++ [last'],
                trades := r.1,
                ongoing_position := r.2.1 }, some "same_candle", r.2.2⟩
    else if last_candle.timestamp + 2 * s.tf_equiv ≤ timestamp then
      -- Missing Candle(s): int((timestamp - last_ts) / tf_equiv) - 1 of them
      let missing_candles := ((timestamp - last_candle.timestamp) / s.tf_equiv - 1).toNat
      let r := appendMissing s.candles last_candle s.tf_equiv missing_candles
      let new_candle : Candle := ⟨r.2.timestamp + s.tf_equiv, price, price, price, price, size⟩
      some ⟨{ s with candles := r.1 ++ [new_candle] }, some "new_candle", []⟩
    else if last_candle.timestamp + s.tf_equiv ≤ timestamp then
      -- New Candle
      let new_candle : Candle := ⟨last_candle.timestamp + s.tf_equiv, price, price, price, price, size⟩
      some ⟨{ s with candles := s.candles ++ [new_candle] }, some "new_candle", []⟩
    else
      -- No branch taken: the Python function would fall through and return None
      some ⟨s, none, []⟩

/-- Process a sequence of ticks `(price, size, timestamp)` through
`parse_trades`, collecting the return value of each call; `env i` is the
tp/sl oracle of the `i`-th call. -/
def processTicks (cl : ClientEnv) : StrategyState → List (ℚ × ℚ × ℤ) → (ℕ → ℕ → TpSlEnv) →
    ℕ → Option (StrategyState × List (Option String))
  | s, [], _, _ => some (s, [])
  | s, (price, size, ts) :: rest, env, i =>
    match parse_trades cl s price size ts (env i) with
    | none => none
    | some r =>
      match processTicks cl r.state rest env (i + 1) with
      | none => none
      | some (s', results) => some (s', r.res :: results)

/-- `strategies.Strategy._open_position` (lines 149–188).  The calls to
`client.get_trade_size` and `client.place_order` are oracled through `env`;
`candles[-1].close` is only passed on to the client, so it is absorbed by
`env.tradeSize`.  Returns the new state and the submitted market orders. -/
def open_position (cl : ClientEnv) (s : StrategyState) (contract : Contract)
    (strat_name : String) (signal_result : ℤ) (env : OpenEnv) :
    StrategyState × List (String × ℚ) :=
  -- Short is not allowed on Spot platforms
  if cl.platform = "binance_spot" ∧ signal_result = -1 then (s, [])
  else
    match env.tradeSize with
    | none => (s, [])
    | some trade_size =>
      let order_side := if signal_result = 1 then "buy" else "sell"
      let position_side := if signal_result = 1 then "long" else "short"
      match env.orderResult with
      | none => (s, [(order_side, trade_size)])
      | some order_status =>
        let avg_fill_price : Option ℚ :=
          if order_status.status = "filled" then some order_status.avg_price else none
        let new_trade : Trade :=
          ⟨env.now, contract, strat_name, position_side, avg_fill_price, "open", 0,
            order_status.executed_qty, order_status.order_id⟩
        ({ s with
            ongoing_position := true,
            trades := s.trades ++ [new_trade] }, [(order_side, trade_size)])

/-- `strategies.TechnicalStrategy.check_trade` (lines 321–334).  The signal
value computed by `_check_signal()` (pandas RSI/MACD indicators) is passed in
as the oracle `signal_result`; the claims proved below hold for every value
of it. -/
def check_trade_technical (cl : ClientEnv) (s : StrategyState) (contract : Contract)
    (tick_type : String) (signal_result : ℤ) (env : OpenEnv) :
    StrategyState × List (String × ℚ) :=
  if tick_type = "new_candle" ∧ s.ongoing_position = false then
    if signal_result = 1 ∨ signal_result = -1 then
      open_position cl s contract "Technical" signal_result env
    else (s, [])
  else (s, [])

/-- `strategies.BreakoutStrategy._check_signal` (lines 344–356).  `none`
models the `IndexError` raised by `self.candles[-2]` (or `[-1]`) when the
candle list has fewer than two elements. -/
def check_signal_breakout (candles : List Candle) (min_volume : ℚ) : Option ℤ :=
  match candles.dropLast.getLast?, candles.getLast? with
  | some prev, some last_candle =>
    some (if last_candle.close > prev.high ∧ last_candle.volume > min_volume then 1
          else if last_candle.close < prev.low ∧ last_candle.volume > min_volume then -1
          else 0)
  | _, _ => none

/-- `strategies.BreakoutStrategy.check_trade` (lines 358–370).  As for the
technical variant, the `_check_signal()` value is the oracle
`signal_result`; `tick_type` is accepted and ignored exactly as in the
source. -/
def check_trade_breakout (cl : ClientEnv) (s : StrategyState) (contract : Contract)
    (tick_type : String) (signal_result : ℤ) (env : OpenEnv) :
    StrategyState × List (String × ℚ) :=
  if s.ongoing_position = false then
    if signal_result = 1 ∨ signal_result = -1 then
      open_position cl s contract "Breakout" signal_result env
    else (s, [])
  else (s, [])

/-- Number of trades with status `"open"` in a trade list. -/
def openCount (ts : List Trade) : ℕ := (ts.filter (fun t => t.status = "open")).length

/-- States in which a `Strategy` instance starts (`__init__`):
`ongoing_position = False`, `trades = []` (the candle list is seeded
externally with historical data and may be anything). -/
def InitStrategy (s : StrategyState) : Prop :=
  s.ongoing_position = false ∧ s.trades = []

/-- One step of a strategy instance, as driven by the websocket callbacks:
either a `parse_trades` call that did not raise, or a `check_trade` call of
one of the two concrete strategy classes, with arbitrary oracle values. -/
inductive StratStep (cl : ClientEnv) (contract : Contract) : StrategyState → StrategyState → Prop
  | parse (s : StrategyState) (price size : ℚ) (ts : ℤ) (env : ℕ → TpSlEnv) (r : ParseResult)
      (h : parse_trades cl s price size ts env = some r) : StratStep cl contract s r.state
  | checkTech (s : StrategyState) (tick_type : String) (signal_result : ℤ) (env : OpenEnv) :
      StratStep cl contract s (check_trade_technical cl s contract tick_type signal_result env).1
  | checkBreak (s : StrategyState) (tick_type : String) (signal_result : ℤ) (env : OpenEnv) :
      StratStep cl contract s (check_trade_breakout cl s contract tick_type signal_result env).1

/-- Reachability of a strategy state from an initial state by any sequence of
`parse_trades` / `check_trade` calls. -/
def ReachableStrategy (cl : ClientEnv) (contract : Contract) (s0 s : StrategyState) : Prop :=
  Relation.ReflTransGen (StratStep cl contract) s0 s

/-- Python `round()` on an exact rational: round half to even. -/
def pyRound (x : ℚ) : ℤ :=
  if x - (⌊x⌋ : ℚ) < 1 / 2 then ⌊x⌋
  else if 1 / 2 < x - (⌊x⌋ : ℚ) then ⌊x⌋ + 1
  else if ⌊x⌋ % 2 = 0 then ⌊x⌋ else ⌊x⌋ + 1

/-- Python `round(x, 8)` on an exact rational. -/
def pyRoundTo8 (x : ℚ) : ℚ := (pyRound (x * 100000000) : ℚ) / 100000000

/-- Python `int()` truncation of a rational toward zero. -/
def pyIntTrunc (x : ℚ) : ℤ := if 0 ≤ x then ⌊x⌋ else ⌈x⌉

/-- `connectors/binance.py`, `BinanceClient.get_trade_size` (lines 510–542).
`balance` is the available quote-asset amount (`wallet_balance` on futures,
`free` on spot); `none` models `get_balances()` failing or the quote asset
being absent, in both of which the source returns `None`. -/
def binance_get_trade_size (balance : Option ℚ) (lot_size price balance_pct : ℚ) : Option ℚ :=
  match balance with
  | none => none
  | some bal =>
    let trade_size := bal * balance_pct / 100 / price
    some (pyRoundTo8 ((pyRound (trade_size / lot_size) : ℚ) * lot_size))

/-- The trade size the SPEC describes.  Modelled from the spec's words, for
comparison with `binance_get_trade_size`: "(available_balance × balance_pct
/ 100) / price, rounded DOWN to a multiple of the contract's lot_size". -/
def spec_trade_size_round_down (bal price balance_pct lot_size : ℚ) : ℚ :=
  (⌊(bal * balance_pct / 100 / price) / lot_size⌋ : ℚ) * lot_size

/-- `connectors/bitmex.py`, `BitmexClient.get_trade_size` (lines 301–335).
`balance` is the `XBt` wallet balance (`none`: balances missing or no `XBt`
key).  The number of contracts is truncated with Python `int()`. -/
def bitmex_get_trade_size (balance : Option ℚ) (inverse quanto : Bool)
    (multiplier price balance_pct : ℚ) : Option ℤ :=
  match balance with
  | none => none
  | some bal =>
    let xbt_size := bal * balance_pct / 100
    let contracts_number :=
      if inverse then xbt_size / (multiplier / price)
      else if quanto then xbt_size / (multiplier * price)
      else xbt_size / (multiplier * price)
    some (pyIntTrunc contracts_number)

/-- `connectors/binance.py`, `BinanceClient._on_message`, bookTicker branch,
lines 445–457: the PnL update applied to one trade of a strategy whose
contract symbol matches the updated symbol. -/
def binance_update_pnl (bid ask : ℚ) (t : Trade) : Trade :=
  if t.status = "open" then
    match t.entry_price with
    | some entry =>
      if t.side = "long" then { t with pnl := (bid - entry) * t.quantity }
      else if t.side = "short" then { t with pnl := (entry - ask) * t.quantity }
      else t
    | none => t
  else t

/-- `connectors/bitmex.py`, `BitmexClient._on_message`, instrument branch,
lines 250–275: the PnL update applied to one trade of a strategy whose
contract symbol matches. -/
def bitmex_update_pnl (bid ask : ℚ) (t : Trade) : Trade :=
  if t.status = "open" then
    match t.entry_price with
    | some entry =>
      let price := if t.side = "long" then bid else ask
      let multiplier := t.contract.multiplier
      if t.contract.inverse then
        if t.side = "long" then
          { t with pnl := (1 / entry - 1 / price) * multiplier * t.quantity }
        else if t.side = "short" then
          { t with pnl := (1 / price - 1 / entry) * multiplier * t.quantity }
        else t
      else
        if t.side = "long" then { t with pnl := (price - entry) * multiplier * t.quantity }
        else if t.side = "short" then { t with pnl := (entry - price) * multiplier * t.quantity }
        else t
    | none => t
  else t

/-- An HTTP response as seen by `_make_request`: the status code and the
parsed JSON body (abstract payload type `J`). -/
structure HttpResponse (J : Type) where
  status_code : ℕ
  body : J

/-- `connectors/binance.py` `BinanceClient._make_request` (lines 99–137) and
`connectors/bitmex.py` `BitmexClient._make_request` (lines 75–111), which
have the same control flow.  `transport` is the outcome of the single
`requests.get/post/delete` call: `Except.error` models a raised transport
exception.  The result is `Except.error` exactly when the function raises to
the caller (only the `raise ValueError()` branch for unknown methods);
`Except.ok none` is the "no result" sentinel `None`.  The single `transport`
argument reflects that the source performs exactly one attempt — no retry. -/
def make_request {J : Type} (method : String) (transport : Except String (HttpResponse J)) :
    Except String (Option J) :=
  let attempt : Except String (HttpResponse J) → Option (HttpResponse J) := fun tr =>
    match tr with
    | .error _ => none   -- `except Exception as e: logger.error(...); return None`
    | .ok response => some response
  let outcome : Option (Option (HttpResponse J)) :=
    if method = "GET" then some (attempt transport)
    else if method = "POST" then some (attempt transport)
    else if method = "DELETE" then some (attempt transport)
    else none             -- `else: raise ValueError()`
  match outcome with
  | none => .error "ValueError"
  | some none => .ok none
  | some (some response) =>
    if response.status_code = 200 then .ok (some response.body)
    else .ok none          -- `logger.error(...); return None`

/-- `connectors/binance.py` `BinanceClient.subscribe_channel`, lines 491–495:
the `for contract in contracts` loop over contract symbols, accumulating the
message `params` and growing the channel's subscription list. -/
def subLoop (channel : String) (reconnection : Bool) :
    List String → List String → List String → List String × List String
  | subs, params, [] => (subs, params)
  | subs, params, sym :: rest =>
    if sym ∉ subs ∨ reconnection = true then
      let params' := params ++ [sym.toLower ++ "@" ++ channel]
      let subs' := if sym ∉ subs then subs ++ [sym] else subs
      subLoop channel reconnection subs' params' rest
    else
      subLoop channel reconnection subs params rest

/-- `connectors/binance.py` `BinanceClient.subscribe_channel` (lines 468–508)
restricted to the one channel's subscription list `subs` (the only entry of
`self.ws_subscriptions` the call touches).  Returns the updated list and
`some params` when a websocket message is sent, `none` when the function
returns early without sending. -/
def subscribe_channel (subs : List String) (channel : String) (symbols : List String)
    (reconnection : Bool) : List String × Option (List String) :=
  if symbols = [] then (subs, some [channel])
  else
    let r := subLoop channel reconnection subs [] symbols
    if r.2 = [] then (r.1, none) else (r.1, some r.2)

/-- `connectors/binance.py` `BinanceClient._on_open`, lines 393–395: the
`for symbol in self.ws_subscriptions[channel]` loop, which calls
`subscribe_channel([contract], channel, reconnection=True)` once per
recorded symbol.  The source iterates the live list, but those calls never
modify it (every symbol is already recorded), so iterating the snapshot
`syms` while threading `subs` is equivalent.  Collects the message sent (or
not) by each call. -/
def reassertLoop (channel : String) : List String → List String →
    List String × List (Option (List String))
  | subs, [] => (subs, [])
  | subs, sym :: rest =>
    let r := subscribe_channel subs channel [sym] true
    let rec' := reassertLoop channel r.1 rest
    (rec'.1, r.2 :: rec'.2)

/-- `connectors/binance.py` `BinanceClient._on_open` (lines 386–398): on
(re)connection, re-assert every recorded subscription of the `bookTicker`
and `aggTrade` channels, then subscribe `BTCUSDT`'s bookTicker if it is not
recorded yet.  Returns the two updated subscription lists and the messages
produced (reconnection messages for bookTicker, then for aggTrade, then the
optional BTCUSDT message). -/
def on_open (subsBook subsAgg : List String) :
    (List String × List String) × List (Option (List String)) :=
  let rb := reassertLoop "bookTicker" subsBook subsBook
  let ra := reassertLoop "aggTrade" subsAgg subsAgg
  if "BTCUSDT" ∈ rb.1 then ((rb.1, ra.1), rb.2 ++ ra.2)
  else
    let rbtc := subscribe_channel rb.1 "bookTicker" ["BTCUSDT"] false
    ((rbtc.1, ra.1), rb.2 ++ ra.2 ++ [rbtc.2])

/-! ### Helper lemmas -/

theorem updCandle_close (c : Candle) (price size : ℚ) : (updCandle c price size).close = price := by
  unfold updCandle
  split_ifs <;> rfl

theorem updCandle_timestamp (c : Candle) (price size : ℚ) :
    (updCandle c price size).timestamp = c.timestamp := by
  unfold updCandle
  split_ifs <;> rfl

theorem pyRound_sub_le (x : ℚ) : |(pyRound x : ℚ) - x| ≤ 1 / 2 := by
  have h0 : (⌊x⌋ : ℚ) ≤ x := Int.floor_le x
  have h1 : x < (⌊x⌋ : ℚ) + 1 := Int.lt_floor_add_one x
  unfold pyRound
  split_ifs with ha hb hc
  · rw [abs_le]
    constructor <;> linarith
  · push_cast
    rw [abs_le]
    constructor <;> linarith
  · have ht : x - (⌊x⌋ : ℚ) = 1 / 2 := le_antisymm (not_lt.1 hb) (not_lt.1 ha)
    rw [abs_le]
    constructor <;> linarith
  · have ht : x - (⌊x⌋ : ℚ) = 1 / 2 := le_antisymm (not_lt.1 hb) (not_lt.1 ha)
    push_cast
    rw [abs_le]
    constructor <;> linarith

theorem pyRound_intCast (m : ℤ) : pyRound (m : ℚ) = m := by
  unfold pyRound
  rw [Int.floor_intCast]
  rw [if_pos (by norm_num)]

theorem pyRoundTo8_of_pow (n : ℤ) (d : ℕ) (hd : d ≤ 8) :
    pyRoundTo8 ((n : ℚ) * (1 / 10 ^ d)) = (n : ℚ) * (1 / 10 ^ d) := by
  have h10 : (10 : ℚ) ^ d ≠ 0 := pow_ne_zero _ (by norm_num)
  have h8 : (100000000 : ℚ) = 10 ^ 8 := by norm_num
  have key : ((n : ℚ) * (1 / 10 ^ d)) * 100000000 = ((n * 10 ^ (8 - d) : ℤ) : ℚ) := by
    push_cast
    rw [h8]
    field_simp
    rw [mul_assoc, ← pow_add]
    congr 2
    omega
  unfold pyRoundTo8
  rw [key, pyRound_intCast]
  push_cast
  rw [h8]
  field_simp
  rw [mul_assoc, ← pow_add]
  congr 2
  omega

theorem pyRound_mul_dist (x lot : ℚ) (hlot : 0 < lot) :
    |(pyRound (x / lot) : ℚ) * lot - x| ≤ lot / 2 := by
  have hne : lot ≠ 0 := ne_of_gt hlot
  have hx : x / lot * lot = x := div_mul_cancel₀ _ hne
  have h1 : (pyRound (x / lot) : ℚ) * lot - x = ((pyRound (x / lot) : ℚ) - x / lot) * lot := by
    rw [sub_mul, hx]
  rw [h1, abs_mul, abs_of_pos hlot]
  calc |(pyRound (x / lot) : ℚ) - x / lot| * lot ≤ (1 / 2) * lot :=
        mul_le_mul_of_nonneg_right (pyRound_sub_le _) hlot.le
    _ = lot / 2 := by ring

theorem pyIntTrunc_of_nonneg (x : ℚ) (h : 0 ≤ x) : pyIntTrunc x = ⌊x⌋ := by
  unfold pyIntTrunc
  rw [if_pos h]

/-! ### C2 — entry order sizing is NOT round-down (corrected) -/

/-- C2 counterexample: with balance 100, balance_pct 100, price 64 and
lot_size 1, the raw size is 25/16 = 1.5625; the spec's round-down value is
1, but `BinanceClient.get_trade_size` (which uses Python `round`, i.e.
nearest) returns 2 — strictly more than the raw size's lot floor. -/
theorem binance_trade_size_not_round_down :
    binance_get_trade_size (some 100) 1 64 100 = some 2 ∧
    spec_trade_size_round_down 100 64 100 1 = 1 ∧ ¬((2 : ℚ) = 1) := by
  refine ⟨?_, ?_, by norm_num⟩
  · unfold binance_get_trade_size pyRoundTo8 pyRound
    norm_num
  · unfold spec_trade_size_round_down
    norm_num

/-- C2 (amended): `BinanceClient.get_trade_size` rounds the raw size
`(balance × balance_pct / 100) / price` to the NEAREST multiple of
`lot_size` (Python `round`: half to even), then rounds to 8 decimals —
which is the identity when `lot_size = 10^(-d)` with `d ≤ 8` — so the
result is within `lot_size / 2` of the raw size but may exceed it;
`BitmexClient.get_trade_size` instead truncates a contract count
`xbt_size / (multiplier / price)` (inverse) or
`xbt_size / (multiplier × price)` (quanto/linear) to an integer
(`int()`, i.e. the floor for non-negative counts). -/
theorem trade_size_rounding_amended (bal price balance_pct : ℚ) (d : ℕ) (hd : d ≤ 8) :
    binance_get_trade_size (some bal) (1 / 10 ^ d) price balance_pct =
      some ((pyRound (bal * balance_pct / 100 / price / (1 / 10 ^ d)) : ℚ) * (1 / 10 ^ d)) ∧
    |(pyRound (bal * balance_pct / 100 / price / (1 / 10 ^ d)) : ℚ) * (1 / 10 ^ d) -
        bal * balance_pct / 100 / price| ≤ 1 / 10 ^ d / 2 ∧
    (∀ (xbt mult p pct2 : ℚ) (inverse quanto : Bool) (n : ℤ),
      bitmex_get_trade_size (some xbt) inverse quanto mult p pct2 = some n →
      (inverse = true → 0 ≤ xbt * pct2 / 100 / (mult / p) →
        (n : ℚ) ≤ xbt * pct2 / 100 / (mult / p) ∧ xbt * pct2 / 100 / (mult / p) < n + 1) ∧
      (inverse = false → 0 ≤ xbt * pct2 / 100 / (mult * p) →
        (n : ℚ) ≤ xbt * pct2 / 100 / (mult * p) ∧ xbt * pct2 / 100 / (mult * p) < n + 1)) := by
  refine ⟨?_, ?_, ?_⟩
  · simp only [binance_get_trade_size]
    rw [pyRoundTo8_of_pow _ d hd]
  · exact pyRound_mul_dist _ _ (by positivity)
  · intro xbt mult p pct2 inverse quanto n heq
    constructor
    · intro hinv hpos
      subst hinv
      simp only [bitmex_get_trade_size, if_true, Option.some_inj] at heq
      rw [pyIntTrunc_of_nonneg _ hpos] at heq
      subst heq
      exact ⟨Int.floor_le _, Int.lt_floor_add_one _⟩
    · intro hinv hpos
      subst hinv
      cases quanto <;>
        simp only [bitmex_get_trade_size, Bool.false_eq_true, if_false, if_true,
          Option.some_inj] at heq <;>
        rw [pyIntTrunc_of_nonneg _ hpos] at heq <;>
        subst heq <;>
        exact ⟨Int.floor_le _, Int.lt_floor_add_one _⟩

/-- C2 (amended) witness: the counterexample configuration (lot_size 1,
i.e. d = 0) evaluated through the amended statement. -/
theorem trade_size_rounding_amended_witness :
    binance_get_trade_size (some 100) (1 / 10 ^ 0) 64 100 =
      some ((pyRound (100 * 100 / 100 / 64 / (1 / 10 ^ 0)) : ℚ) * (1 / 10 ^ 0)) :=
  (trade_size_rounding_amended 100 64 100 0 (by norm_num)).1

/-! ### C10 — totality and two-valued result of `parse_trades` -/

/-- C10: for every strategy whose candle list is non-empty, `parse_trades` is
total over all integer tick timestamps and always returns `"same_candle"` or
`"new_candle"` (the three timestamp branches are exhaustive); with an empty
candle list the access to the last candle fails (modelled by `none`). -/
theorem parse_trades_total_two_results (cl : ClientEnv) (s : StrategyState)
    (price size : ℚ) (timestamp : ℤ) (env : ℕ → TpSlEnv) :
    (s.candles ≠ [] → ∃ r, parse_trades cl s price size timestamp env = some r ∧
      (r.res = some "same_candle" ∨ r.res = some "new_candle")) ∧
    (s.candles = [] → parse_trades cl s price size timestamp env = none) := by
  rcases hl : s.candles.getLast? with _ | last_candle
  · have he : s.candles = [] := List.getLast?_eq_none_iff.1 hl
    exact ⟨fun hne => absurd he hne, fun _ => by simp [parse_trades, hl]⟩
  · constructor
    · intro _
      simp only [parse_trades, hl]
      by_cases h1 : timestamp < last_candle.timestamp + s.tf_equiv
      · rw [if_pos h1]
        exact ⟨_, rfl, Or.inl rfl⟩
      · rw [if_neg h1]
        by_cases h2 : last_candle.timestamp + 2 * s.tf_equiv ≤ timestamp
        · rw [if_pos h2]
          exact ⟨_, rfl, Or.inr rfl⟩
        · have h3 : last_candle.timestamp + s.tf_equiv ≤ timestamp := by omega
          rw [if_neg h2, if_pos h3]
          exact ⟨_, rfl, Or.inr rfl⟩
    · intro he
      rw [he] at hl
      simp at hl

/-- C10 witness: a concrete non-empty strategy state on which `parse_trades`
returns a value. -/
theorem parse_trades_total_two_results_witness :
    ∃ r, parse_trades ⟨"binance_futures", true⟩
      ⟨60000, 10, some 1, some 1, false, [⟨0, 100, 100, 100, 100, 5⟩], []⟩
      102 2 30000 (fun _ => ⟨none, none⟩) = some r ∧
      (r.res = some "same_candle" ∨ r.res = some "new_candle") :=
  (parse_trades_total_two_results ⟨"binance_futures", true⟩
      ⟨60000, 10, some 1, some 1, false, [⟨0, 100, 100, 100, 100, 5⟩], []⟩
      102 2 30000 (fun _ => ⟨none, none⟩)).1 (by simp)

/-! ### C7 — `_make_request` error handling -/

/-- C7: for every request with method GET, POST or DELETE, a transport error
or a non-200 HTTP status makes `_make_request` return the `None` sentinel
without raising (the `Except` layer stays `.ok`) and without retrying (the
model consumes the single transport attempt). -/
theorem make_request_error_returns_none {J : Type} (method : String)
    (transport : Except String (HttpResponse J))
    (h : method = "GET" ∨ method = "POST" ∨ method = "DELETE") :
    (∀ e, transport = .error e → make_request method transport = .ok none) ∧
    (∀ response, transport = .ok response → response.status_code ≠ 200 →
      make_request method transport = .ok none) := by
  constructor
  · rintro e rfl
    rcases h with h | h | h <;> subst h <;> simp [make_request]
  · rintro response rfl hs
    rcases h with h | h | h <;> subst h <;> simp [make_request, hs]

/-- C7 witness: a concrete GET whose transport raised, and a concrete GET
whose response status is 500; both produce `.ok none`. -/
theorem make_request_error_returns_none_witness :
    make_request "GET" (.error "connection reset" : Except String (HttpResponse ℕ)) = .ok none ∧
    make_request "GET" (.ok ⟨500, 7⟩ : Except String (HttpResponse ℕ)) = .ok none :=
  ⟨(make_request_error_returns_none "GET" (.error "connection reset") (Or.inl rfl)).1
      "connection reset" rfl,
   (make_request_error_returns_none "GET" (.ok ⟨500, 7⟩) (Or.inl rfl)).2 ⟨500, 7⟩ rfl (by decide)⟩

/-! ### C8 — breakout signal characterization -/

/-- C8: with at least two candles (and a well-formed previous candle,
`low ≤ high`), the breakout signal is `1` iff the last close strictly exceeds
the previous high with volume strictly above the configured minimum, `-1` iff
the last close is strictly below the previous low under the same volume
condition, and `0` otherwise. -/
theorem breakout_signal_iff (candles : List Candle) (min_volume : ℚ)
    (prev last_candle : Candle)
    (hp : candles.dropLast.getLast? = some prev)
    (hl : candles.getLast? = some last_candle)
    (hwf : prev.low ≤ prev.high) :
    (check_signal_breakout candles min_volume = some 1 ↔
      last_candle.close > prev.high ∧ last_candle.volume > min_volume) ∧
    (check_signal_breakout candles min_volume = some (-1) ↔
      last_candle.close < prev.low ∧ last_candle.volume > min_volume) ∧
    (¬(last_candle.close > prev.high ∧ last_candle.volume > min_volume) →
     ¬(last_candle.close < prev.low ∧ last_candle.volume > min_volume) →
      check_signal_breakout candles min_volume = some 0) := by
  simp only [check_signal_breakout, hp, hl]
  by_cases h1 : last_candle.close > prev.high ∧ last_candle.volume > min_volume
  · have h2 : ¬(last_candle.close < prev.low ∧ last_candle.volume > min_volume) := by
      rintro ⟨hlt, -⟩
      exact absurd h1.1 (by linarith)
    rw [if_pos h1]
    refine ⟨by simp [h1], ?_, fun hc _ => absurd h1 hc⟩
    simp only [Option.some_inj]
    constructor
    · intro he
      exact absurd he (by decide)
    · intro hc
      exact absurd hc h2
  · rw [if_neg h1]
    by_cases h2 : last_candle.close < prev.low ∧ last_candle.volume > min_volume
    · rw [if_pos h2]
      refine ⟨?_, by simp [h2], fun _ hc => absurd h2 hc⟩
      simp only [Option.some_inj]
      constructor
      · intro he
        exact absurd he (by decide)
      · intro hc
        exact absurd hc h1
    · rw [if_neg h2]
      refine ⟨?_, ?_, fun _ _ => rfl⟩
      · simp only [Option.some_inj]
        exact ⟨fun he => absurd he (by decide), fun hc => absurd hc h1⟩
      · simp only [Option.some_inj]
        exact ⟨fun he => absurd he (by decide), fun hc => absurd hc h2⟩

/-- C8 witness: a concrete two-candle breakout state evaluating to a long
signal, checked through the characterization. -/
theorem breakout_signal_iff_witness :
    check_signal_breakout [⟨0, 100, 105, 99, 104, 5⟩, ⟨60000, 104, 110, 104, 110, 9⟩] 3 = some 1 :=
  (breakout_signal_iff [⟨0, 100, 105, 99, 104, 5⟩, ⟨60000, 104, 110, 104, 110, 9⟩] 3
      ⟨0, 100, 105, 99, 104, 5⟩ ⟨60000, 104, 110, 104, 110, 9⟩ (by simp) (by simp)
      (by norm_num)).1.2 (by norm_num)

/-! ### C6 — unrealized PnL recomputation on bid/ask updates -/

/-- C6: on a bid/ask update, an open trade with a known entry price gets
PnL `(bid − entry) × qty` for longs and `(entry − ask) × qty` for shorts
under Binance's linear math; on Bitmex, an inverse-contract trade gets
`(1/entry − 1/price) × multiplier × qty` for longs (price = bid) and the
sign-mirrored value for shorts (price = ask); and the Bitmex contract
constructor negates the multiplier for inverse contracts. -/
theorem update_pnl_formulas (bid ask : ℚ) (t : Trade) (entry : ℚ)
    (hst : t.status = "open") (hep : t.entry_price = some entry) :
    ((t.side = "long" → (binance_update_pnl bid ask t).pnl = (bid - entry) * t.quantity) ∧
     (t.side = "short" → (binance_update_pnl bid ask t).pnl = (entry - ask) * t.quantity)) ∧
    (t.contract.inverse = true →
      ((t.side = "long" → (bitmex_update_pnl bid ask t).pnl =
          (1 / entry - 1 / bid) * t.contract.multiplier * t.quantity) ∧
       (t.side = "short" → (bitmex_update_pnl bid ask t).pnl =
          -((1 / entry - 1 / ask) * t.contract.multiplier * t.quantity)))) ∧
    (∀ rawMultiplier : ℚ,
      bitmexContractMultiplier rawMultiplier true = -(rawMultiplier * BITMEX_MULTIPLIER)) := by
  refine ⟨⟨?_, ?_⟩, fun hinv => ⟨?_, ?_⟩, fun raw => ?_⟩
  · intro hside
    simp [binance_update_pnl, hst, hep, hside]
  · intro hside
    simp [binance_update_pnl, hst, hep, hside]
  · intro hside
    simp [bitmex_update_pnl, hst, hep, hside, hinv]
  · intro hside
    simp [bitmex_update_pnl, hst, hep, hside, hinv]
    ring
  · simp [bitmexContractMultiplier]

/-- C6 witness: a concrete open long trade on an inverse Bitmex contract. -/
theorem update_pnl_formulas_witness :
    (bitmex_update_pnl 50000 50010
      ⟨0, ⟨"XBTUSD", "XBT", "USD", 1, true, false, -(1 / 100000000)⟩, "Breakout", "long",
        some 40000, "open", 0, 1000, 3⟩).pnl =
      (1 / 40000 - 1 / 50000) * -(1 / 100000000) * 1000 :=
  ((update_pnl_formulas 50000 50010
      ⟨0, ⟨"XBTUSD", "XBT", "USD", 1, true, false, -(1 / 100000000)⟩, "Breakout", "long",
        some 40000, "open", 0, 1000, 3⟩ 40000 rfl rfl).2.1 rfl).1 rfl

/-! ### C9 — idempotent subscriptions and exact re-assertion on reconnect -/

theorem subscribe_existing_noop (subs : List String) (channel sym : String) (h : sym ∈ subs) :
    subscribe_channel subs channel [sym] false = (subs, none) := by
  simp [subscribe_channel, subLoop, h]

theorem subLoop_nodup (channel : String) (reconnection : Bool) (syms : List String) :
    ∀ subs params, subs.Nodup → (subLoop channel reconnection subs params syms).1.Nodup := by
  induction syms with
  | nil => intro subs params h; exact h
  | cons sym rest ih =>
    intro subs params h
    by_cases hc : sym ∉ subs ∨ reconnection = true
    · rw [subLoop, if_pos hc]
      apply ih
      by_cases hm : sym ∉ subs
      · rw [if_pos hm]
        simp [List.nodup_append, h, hm]
      · rw [if_neg hm]
        exact h
    · rw [subLoop, if_neg hc]
      exact ih subs params h

theorem subscribe_channel_nodup (subs : List String) (channel : String) (symbols : List String)
    (reconnection : Bool) (h : subs.Nodup) :
    (subscribe_channel subs channel symbols reconnection).1.Nodup := by
  simp only [subscribe_channel]
  split_ifs
  · exact h
  · exact subLoop_nodup channel reconnection symbols subs [] h
  · exact subLoop_nodup channel reconnection symbols subs [] h

theorem subscribe_member_reconnect (subs : List String) (channel sym : String) (h : sym ∈ subs) :
    subscribe_channel subs channel [sym] true =
      (subs, some [sym.toLower ++ "@" ++ channel]) := by
  simp [subscribe_channel, subLoop, h]

theorem reassertLoop_all_mem (channel : String) (syms : List String) :
    ∀ subs, (∀ x ∈ syms, x ∈ subs) →
      reassertLoop channel subs syms =
        (subs, syms.map (fun s => some [s.toLower ++ "@" ++ channel])) := by
  induction syms with
  | nil => intro subs _; rfl
  | cons sym rest ih =>
    intro subs hall
    have hm : sym ∈ subs := hall sym (List.mem_cons_self _ _)
    rw [reassertLoop, subscribe_member_reconnect subs channel sym hm]
    rw [ih subs (fun x hx => hall x (List.mem_cons_of_mem _ hx))]
    simp

theorem subscribe_new_symbol (subs : List String) (channel sym : String) (h : sym ∉ subs) :
    subscribe_channel subs channel [sym] false =
      (subs ++ [sym], some [sym.toLower ++ "@" ++ channel]) := by
  simp [subscribe_channel, subLoop, h]

/-- C9: subscribing (without the reconnection flag) to a symbol already in
the channel's subscription list is a no-op — no message, list unchanged —
so subscription lists stay duplicate-free under every `subscribe_channel`
call; and `_on_open` re-asserts every recorded symbol/channel subscription
exactly once (one message per recorded symbol, in order), leaving the lists
without duplicates (it additionally subscribes BTCUSDT's bookTicker when it
was not recorded). -/
theorem subscriptions_idempotent_no_duplicates (subs : List String) (channel sym : String)
    (hmem : sym ∈ subs) (subsBook subsAgg : List String)
    (hb : subsBook.Nodup) (ha : subsAgg.Nodup) :
    subscribe_channel subs channel [sym] false = (subs, none) ∧
    (∀ (subs0 : List String) (ch : String) (symbols : List String) (reconnection : Bool),
      subs0.Nodup → (subscribe_channel subs0 ch symbols reconnection).1.Nodup) ∧
    (on_open subsBook subsAgg).2 =
      subsBook.map (fun s => some [s.toLower ++ "@" ++ "bookTicker"]) ++
        subsAgg.map (fun s => some [s.toLower ++ "@" ++ "aggTrade"]) ++
        (if "BTCUSDT" ∈ subsBook then []
         else [some ["BTCUSDT".toLower ++ "@" ++ "bookTicker"]]) ∧
    (on_open subsBook subsAgg).1.1 =
      (if "BTCUSDT" ∈ subsBook then subsBook else subsBook ++ ["BTCUSDT"]) ∧
    (on_open subsBook subsAgg).1.2 = subsAgg ∧
    (on_open subsBook subsAgg).1.1.Nodup ∧
    (on_open subsBook subsAgg).1.2.Nodup := by
  have hrb := reassertLoop_all_mem "bookTicker" subsBook subsBook (fun x hx => hx)
  have hra := reassertLoop_all_mem "aggTrade" subsAgg subsAgg (fun x hx => hx)
  refine ⟨subscribe_existing_noop subs channel sym hmem,
    fun subs0 ch symbols r h => subscribe_channel_nodup subs0 ch symbols r h, ?_⟩
  by_cases hbtc : "BTCUSDT" ∈ subsBook
  · simp only [on_open, hrb, hra]
    rw [if_pos hbtc, if_pos hbtc, if_pos hbtc]
    simp [hb, ha]
  · simp only [on_open, hrb, hra]
    rw [if_neg hbtc, if_neg hbtc, if_neg hbtc]
    rw [subscribe_new_symbol subsBook "bookTicker" "BTCUSDT" hbtc]
    simp [hb, ha, List.nodup_append, hbtc]

/-- C9 witness: re-subscribing "ETHUSDT" without the reconnection flag on a
list already containing it produces no message and leaves the list as it
was. -/
theorem subscriptions_idempotent_no_duplicates_witness :
    subscribe_channel ["ETHUSDT"] "aggTrade" ["ETHUSDT"] false = (["ETHUSDT"], none) :=
  (subscriptions_idempotent_no_duplicates ["ETHUSDT"] "aggTrade" "ETHUSDT" (by simp)
    ["BTCUSDT"] [] (by simp) (by simp)).1

/-! ### C1 — gap filling with synthetic flat candles -/

theorem appendMissing_fst (W : ℤ) (n : ℕ) :
    ∀ (cands : List Candle) (c : Candle),
      (appendMissing cands c W n).1 =
        cands ++ (List.range n).map
          (fun i : ℕ => flatCandle (c.timestamp + W * ((i : ℤ) + 1)) c.close) := by
  induction n with
  | zero => intro cands c; simp [appendMissing]
  | succ n ih =>
    intro cands c
    rw [appendMissing, ih]
    rw [List.range_succ_eq_map, List.map_cons, List.map_map, List.append_assoc]
    congr 1
    rw [List.singleton_append]
    congr 1
    · show flatCandle (c.timestamp + W) c.close =
        flatCandle (c.timestamp + W * (((0 : ℕ) : ℤ) + 1)) c.close
      congr 1
      push_cast
      ring
    · apply List.map_congr_left
      intro i _
      show flatCandle (c.timestamp + W + W * ((i : ℤ) + 1)) c.close =
        flatCandle (c.timestamp + W * (((i.succ : ℕ) : ℤ) + 1)) c.close
      congr 1
      push_cast
      ring

theorem appendMissing_snd_timestamp (W : ℤ) (n : ℕ) :
    ∀ (cands : List Candle) (c : Candle),
      (appendMissing cands c W n).2.timestamp = c.timestamp + W * n := by
  induction n with
  | zero => intro cands c; simp [appendMissing]
  | succ n ih =>
    intro cands c
    rw [appendMissing, ih]
    show c.timestamp + W + W * n = c.timestamp + W * ((n : ℕ) + 1 : ℕ)
    push_cast
    ring

/-- C1: when a tick arrives at least two bucket widths after the last
candle's bucket start `T`, `parse_trades` appends exactly
`k = ⌊(timestamp − T)/W⌋ − 1 ≥ 1` synthetic flat candles
(open = high = low = close = the previous candle's close, volume 0) at the
consecutive bucket starts `T+W, …, T+kW`, in order, followed by one new
candle at `T+(k+1)W` whose OHLC all equal the tick price and whose volume is
the tick size; the candle list grows by `k+1` and the call returns
`"new_candle"`. -/
theorem gap_fill_flat_candles (cl : ClientEnv) (s : StrategyState) (price size : ℚ)
    (timestamp : ℤ) (env : ℕ → TpSlEnv) (last_candle : Candle) (k : ℕ)
    (hW : 0 < s.tf_equiv)
    (hlast : s.candles.getLast? = some last_candle)
    (hts : last_candle.timestamp + 2 * s.tf_equiv ≤ timestamp)
    (hk : k = ((timestamp - last_candle.timestamp) / s.tf_equiv - 1).toNat) :
    1 ≤ k ∧
    parse_trades cl s price size timestamp env = some
      ⟨{ s with candles := s.candles ++
          (List.range k).map (fun i : ℕ =>
            flatCandle (last_candle.timestamp + s.tf_equiv * ((i : ℤ) + 1)) last_candle.close) ++
          [⟨last_candle.timestamp + s.tf_equiv * ((k : ℤ) + 1), price, price, price, price, size⟩] },
        some "new_candle", []⟩ ∧
    (s.candles ++
        (List.range k).map (fun i : ℕ =>
          flatCandle (last_candle.timestamp + s.tf_equiv * ((i : ℤ) + 1)) last_candle.close) ++
        [(⟨last_candle.timestamp + s.tf_equiv * ((k : ℤ) + 1), price, price, price, price, size⟩ :
          Candle)]).length = s.candles.length + (k + 1) := by
  have hdiv : 2 ≤ (timestamp - last_candle.timestamp) / s.tf_equiv := by
    rw [Int.le_ediv_iff_mul_le hW]
    linarith
  have hk1 : 1 ≤ k := by omega
  refine ⟨hk1, ?_, ?_⟩
  · simp only [parse_trades, hlast]
    have h1 : ¬(timestamp < last_candle.timestamp + s.tf_equiv) := by omega
    rw [if_neg h1, if_pos hts]
    rw [← hk]
    rw [appendMissing_fst, appendMissing_snd_timestamp]
    have harith : last_candle.timestamp + s.tf_equiv * (k : ℤ) + s.tf_equiv =
        last_candle.timestamp + s.tf_equiv * ((k : ℤ) + 1) := by ring
    rw [harith]
  · simp [List.length_append, List.length_map, List.length_range]

/-- C1 witness: a 1-minute strategy whose last bucket starts at 0 receives a
tick at t = 185000 ms; k = ⌊185000/60000⌋ − 1 = 2 flat candles are inserted
at 60000 and 120000 and the new candle opens at 180000. -/
theorem gap_fill_flat_candles_witness :
    parse_trades ⟨"binance_futures", true⟩
      ⟨60000, 10, some 1, some 1, false, [⟨0, 100, 101, 99, 100, 5⟩], []⟩
      102 2 185000 (fun _ => ⟨none, none⟩) = some
      ⟨{ (⟨60000, 10, some 1, some 1, false, [⟨0, 100, 101, 99, 100, 5⟩], []⟩ : StrategyState) with
          candles := [⟨0, 100, 101, 99, 100, 5⟩] ++
            (List.range 2).map (fun i : ℕ => flatCandle (0 + 60000 * ((i : ℤ) + 1)) 100) ++
            [⟨0 + 60000 * ((2 : ℕ) + 1 : ℤ), 102, 102, 102, 102, 2⟩] },
        some "new_candle", []⟩ :=
  (gap_fill_flat_candles ⟨"binance_futures", true⟩
      ⟨60000, 10, some 1, some 1, false, [⟨0, 100, 101, 99, 100, 5⟩], []⟩
      102 2 185000 (fun _ => ⟨none, none⟩) ⟨0, 100, 101, 99, 100, 5⟩ 2
      (by norm_num) (by simp) (by norm_num) (by decide)).2.1

/-! ### C5 — in-bucket ticks update the last candle in place -/

theorem Candle.ext_fields (a b : Candle) (h1 : a.timestamp = b.timestamp)
    (h2 : a.open_ = b.open_) (h3 : a.high = b.high) (h4 : a.low = b.low)
    (h5 : a.close = b.close) (h6 : a.volume = b.volume) : a = b := by
  cases a
  cases b
  simp_all

theorem eq_dropLast_concat_of_getLast? {α : Type} (l : List α) (c : α)
    (h : l.getLast? = some c) : l = l.dropLast ++ [c] := by
  have hne : l ≠ [] := by rintro rfl; simp at h
  have hdl := List.dropLast_append_getLast hne
  rw [List.getLast?_eq_getLast _ hne] at h
  simp only [Option.some_inj] at h
  rw [← h]
  exact hdl.symm

theorem updCandle_char (c : Candle) (price size : ℚ) (hwf : c.low ≤ c.high) :
    updCandle c price size =
      ⟨c.timestamp, c.open_, max c.high price, min c.low price, price, c.volume + size⟩ ∧
    min c.low price ≤ max c.high price := by
  constructor
  · unfold updCandle
    split_ifs with h1 h2
    · apply Candle.ext_fields
      · rfl
      · rfl
      · exact (max_eq_right h1.le).symm
      · exact (min_eq_left (hwf.trans h1.le)).symm
      · rfl
      · rfl
    · apply Candle.ext_fields
      · rfl
      · rfl
      · exact (max_eq_left (not_lt.1 h1)).symm
      · exact (min_eq_right h2.le).symm
      · rfl
      · rfl
    · apply Candle.ext_fields
      · rfl
      · rfl
      · exact (max_eq_left (not_lt.1 h1)).symm
      · exact (min_eq_left (not_lt.1 h2)).symm
      · rfl
      · rfl
  · calc min c.low price ≤ c.low := min_le_left _ _
      _ ≤ c.high := hwf
      _ ≤ max c.high price := le_max_left _ _

theorem getLast?_getD_cons {α : Type} (a d : α) (l : List α) :
    ((a :: l).getLast?).getD d = (l.getLast?).getD a := by
  cases l with
  | nil => rfl
  | cons y t =>
    rw [List.getLast?_cons_cons]
    rcases hz : (y :: t).getLast? with _ | z
    · rw [List.getLast?_eq_none_iff] at hz
      exact absurd hz (by simp)
    · rfl

theorem foldl_updCandle_char (ticks : List (ℚ × ℚ × ℤ)) :
    ∀ c : Candle, c.low ≤ c.high →
      (ticks.foldl (fun acc x => updCandle acc x.1 x.2.1) c).timestamp = c.timestamp ∧
      (ticks.foldl (fun acc x => updCandle acc x.1 x.2.1) c).open_ = c.open_ ∧
      (ticks.foldl (fun acc x => updCandle acc x.1 x.2.1) c).high =
        ticks.foldl (fun h x => max h x.1) c.high ∧
      (ticks.foldl (fun acc x => updCandle acc x.1 x.2.1) c).low =
        ticks.foldl (fun l x => min l x.1) c.low ∧
      (ticks.foldl (fun acc x => updCandle acc x.1 x.2.1) c).volume =
        c.volume + (ticks.map (fun x => x.2.1)).sum ∧
      (ticks.foldl (fun acc x => updCandle acc x.1 x.2.1) c).close =
        ((ticks.map (fun x => x.1)).getLast?).getD c.close ∧
      (ticks.foldl (fun acc x => updCandle acc x.1 x.2.1) c).low ≤
        (ticks.foldl (fun acc x => updCandle acc x.1 x.2.1) c).high := by
  induction ticks with
  | nil =>
    intro c hwf
    refine ⟨rfl, rfl, rfl, rfl, by simp, by simp, hwf⟩
  | cons x rest ih =>
    intro c hwf
    obtain ⟨hc1, hwf1⟩ := updCandle_char c x.1 x.2.1 hwf
    simp only [List.foldl_cons, List.map_cons, List.sum_cons, hc1]
    obtain ⟨i1, i2, i3, i4, i5, i6, i7⟩ := ih
      ⟨c.timestamp, c.open_, max c.high x.1, min c.low x.1, x.1, c.volume + x.2.1⟩ hwf1
    refine ⟨i1, i2, i3, i4, ?_, ?_, i7⟩
    · rw [i5]
      show c.volume + x.2.1 + _ = _
      ring
    · rw [i6]
      show _ = ((x.1 :: rest.map (fun x => x.1)).getLast?).getD c.close
      rw [getLast?_getD_cons]

/-- `parse_trades`, same-candle branch: the last candle is replaced in
place by its update and the TP/SL loop runs against the new close, which is
the tick price. -/
theorem parse_trades_same_candle (cl : ClientEnv) (s : StrategyState) (price size : ℚ)
    (timestamp : ℤ) (env : ℕ → TpSlEnv) (last_candle : Candle)
    (hlast : s.candles.getLast? = some last_candle)
    (h1 : timestamp < last_candle.timestamp + s.tf_equiv) :
    parse_trades cl s price size timestamp env = some
      ⟨{ s with
          candles := s.candles.dropLast ++ [updCandle last_candle price size],
          trades := (tpSlLoop cl s.take_profit s.stop_loss price env s.trades 0
            s.ongoing_position).1,
          ongoing_position := (tpSlLoop cl s.take_profit s.stop_loss price env s.trades 0
            s.ongoing_position).2.1 },
        some "same_candle",
        (tpSlLoop cl s.take_profit s.stop_loss price env s.trades 0 s.ongoing_position).2.2⟩ := by
  simp only [parse_trades, hlast]
  rw [if_pos h1, updCandle_close]

theorem processTicks_same_run (cl : ClientEnv) (ticks : List (ℚ × ℚ × ℤ)) :
    ∀ (s : StrategyState) (c : Candle) (env : ℕ → ℕ → TpSlEnv) (i : ℕ),
      s.candles.getLast? = some c →
      (∀ x ∈ ticks, x.2.2 < c.timestamp + s.tf_equiv) →
      ∃ s', processTicks cl s ticks env i =
          some (s', List.replicate ticks.length (some "same_candle")) ∧
        s'.candles = s.candles.dropLast ++
          [ticks.foldl (fun acc x => updCandle acc x.1 x.2.1) c] ∧
        s'.tf_equiv = s.tf_equiv := by
  induction ticks with
  | nil =>
    intro s c env i hlast _
    exact ⟨s, rfl, eq_dropLast_concat_of_getLast? _ _ hlast, rfl⟩
  | cons x rest ih =>
    intro s c env i hlast hts
    have hstep := parse_trades_same_candle cl s x.1 x.2.1 x.2.2 (env i) c hlast
      (hts x (by simp))
    obtain ⟨s', hproc, hcand, htf⟩ := ih
      { s with
          candles := s.candles.dropLast ++ [updCandle c x.1 x.2.1],
          trades := (tpSlLoop cl s.take_profit s.stop_loss x.1 (env i) s.trades 0
            s.ongoing_position).1,
          ongoing_position := (tpSlLoop cl s.take_profit s.stop_loss x.1 (env i) s.trades 0
            s.ongoing_position).2.1 }
      (updCandle c x.1 x.2.1) env (i + 1)
      (by simp [List.getLast?_concat])
      (by
        intro y hy
        rw [updCandle_timestamp]
        exact hts y (by simp [hy]))
    refine ⟨s', ?_, ?_, ?_⟩
    · rcases x with ⟨p, sz, t⟩
      simp only [processTicks, hstep, hproc, List.length_cons, List.replicate_succ]
    · rw [hcand]
      simp only [List.dropLast_concat, List.foldl_cons]
    · rw [htf]

/-- C5: for a non-empty candle list with well-formed last candle, any finite
sequence of ticks whose timestamps stay strictly inside the current bucket
returns `"same_candle"` for every tick, appends no candle, and leaves the
last candle with close = the final tick's price, high/low = the max/min of
the original high/low and all tick prices, and volume = the original volume
plus the sum of all tick sizes. -/
theorem same_candle_run_updates_last (cl : ClientEnv) (ticks : List (ℚ × ℚ × ℤ))
    (s : StrategyState) (c : Candle) (env : ℕ → ℕ → TpSlEnv) (lastTick : ℚ × ℚ × ℤ)
    (hlast : s.candles.getLast? = some c)
    (hwf : c.low ≤ c.high)
    (hts : ∀ x ∈ ticks, x.2.2 < c.timestamp + s.tf_equiv)
    (hlt : ticks.getLast? = some lastTick) :
    ∃ s', processTicks cl s ticks env 0 =
        some (s', List.replicate ticks.length (some "same_candle")) ∧
      s'.candles.length = s.candles.length ∧
      s'.candles.getLast? = some ⟨c.timestamp, c.open_,
        ticks.foldl (fun h x => max h x.1) c.high,
        ticks.foldl (fun l x => min l x.1) c.low,
        lastTick.1,
        c.volume + (ticks.map (fun x => x.2.1)).sum⟩ := by
  obtain ⟨s', hproc, hcand, htf⟩ := processTicks_same_run cl ticks s c env 0 hlast hts
  obtain ⟨f1, f2, f3, f4, f5, f6, f7⟩ := foldl_updCandle_char ticks c hwf
  have hfold : ticks.foldl (fun acc x => updCandle acc x.1 x.2.1) c =
      ⟨c.timestamp, c.open_,
        ticks.foldl (fun h x => max h x.1) c.high,
        ticks.foldl (fun l x => min l x.1) c.low,
        lastTick.1,
        c.volume + (ticks.map (fun x => x.2.1)).sum⟩ := by
    apply Candle.ext_fields
    · exact f1
    · exact f2
    · exact f3
    · exact f4
    · rw [f6, List.getLast?_map, hlt]
      rfl
    · exact f5
  have hne : s.candles ≠ [] := by
    rintro h
    rw [h] at hlast
    simp at hlast
  refine ⟨s', hproc, ?_, ?_⟩
  · rw [hcand]
    have h1 := List.length_dropLast s.candles
    have h2 : 1 ≤ s.candles.length := List.length_pos.2 hne
    simp only [List.length_append, List.length_cons, List.length_nil]
    omega
  · rw [hcand, List.getLast?_concat, hfold]

/-- C5 witness: two in-bucket ticks (prices 102 then 98) on a candle with
high 101 / low 99 / volume 5: both return `"same_candle"`, no candle is
appended, and the last candle ends with close 98, high 102, low 98,
volume 10. -/
theorem same_candle_run_updates_last_witness :
    ∃ s', processTicks ⟨"binance_futures", true⟩
        ⟨60000, 10, some 1, some 1, false, [⟨0, 100, 101, 99, 100, 5⟩], []⟩
        [(102, 2, 1000), (98, 3, 2000)] (fun _ _ => ⟨none, none⟩) 0 =
        some (s', List.replicate ([(102, 2, 1000), (98, 3, 2000)] :
          List (ℚ × ℚ × ℤ)).length (some "same_candle")) ∧
      s'.candles.length =
        ([⟨0, 100, 101, 99, 100, 5⟩] : List Candle).length ∧
      s'.candles.getLast? = some ⟨0, 100,
        ([(102, 2, 1000), (98, 3, 2000)] : List (ℚ × ℚ × ℤ)).foldl
          (fun h x => max h x.1) 101,
        ([(102, 2, 1000), (98, 3, 2000)] : List (ℚ × ℚ × ℤ)).foldl
          (fun l x => min l x.1) 99,
        98,
        5 + (([(102, 2, 1000), (98, 3, 2000)] : List (ℚ × ℚ × ℤ)).map
          (fun x => x.2.1)).sum⟩ :=
  same_candle_run_updates_last ⟨"binance_futures", true⟩
    [(102, 2, 1000), (98, 3, 2000)]
    ⟨60000, 10, some 1, some 1, false, [⟨0, 100, 101, 99, 100, 5⟩], []⟩
    ⟨0, 100, 101, 99, 100, 5⟩ (fun _ _ => ⟨none, none⟩) (98, 3, 2000)
    (by simp) (by norm_num)
    (by
      intro x hx
      simp at hx
      rcases hx with rfl | rfl <;> norm_num)
    (by simp)

/-! ### C3 — at most one open trade; entry signal while open is a no-op -/

/-- The inductive invariant for C3: at most one open trade, and none at all
while no position is flagged as ongoing. -/
def StratInv (s : StrategyState) : Prop :=
  openCount s.trades ≤ 1 ∧ (s.ongoing_position = false → openCount s.trades = 0)

theorem openCount_cons (t : Trade) (ts : List Trade) :
    openCount (t :: ts) = (if t.status = "open" then 1 else 0) + openCount ts := by
  by_cases h : t.status = "open"
  · simp [openCount, List.filter_cons, h]
    omega
  · simp [openCount, List.filter_cons, h]

theorem openCount_append (ts1 ts2 : List Trade) :
    openCount (ts1 ++ ts2) = openCount ts1 + openCount ts2 := by
  simp [openCount, List.filter_append]

theorem check_tp_sl_closed_status (cl : ClientEnv) (tp sl : Option ℚ) (price : ℚ)
    (t : Trade) (entry : ℚ) (env : TpSlEnv) :
    ((check_tp_sl cl tp sl price t entry env).2.1 = true →
      (check_tp_sl cl tp sl price t entry env).1.status = "closed") ∧
    ((check_tp_sl cl tp sl price t entry env).2.1 = false →
      (check_tp_sl cl tp sl price t entry env).1.status = t.status) := by
  rcases hor : env.orderResult with _ | os <;>
    simp only [check_tp_sl, hor] <;> split_ifs <;> simp

theorem tpSlLoop_no_open (cl : ClientEnv) (tp sl : Option ℚ) (price : ℚ) (env : ℕ → TpSlEnv) :
    ∀ (ts : List Trade) (i : ℕ) (ongoing : Bool), openCount ts = 0 →
      tpSlLoop cl tp sl price env ts i ongoing = (ts, ongoing, []) := by
  intro ts
  induction ts with
  | nil => intro i ongoing _; rfl
  | cons t rest ih =>
    intro i ongoing h
    rw [openCount_cons] at h
    have hst : ¬(t.status = "open") := by
      intro hs
      rw [if_pos hs] at h
      omega
    have hrest : openCount rest = 0 := by
      split_ifs at h
      omega
    rw [tpSlLoop, if_neg hst, ih (i + 1) ongoing hrest]



theorem tpSlLoop_inv (cl : ClientEnv) (tp sl : Option ℚ) (price : ℚ) (env : ℕ → TpSlEnv) :
    ∀ (ts : List Trade) (i : ℕ) (ongoing : Bool),
      openCount ts ≤ 1 → (ongoing = false → openCount ts = 0) →
      openCount (tpSlLoop cl tp sl price env ts i ongoing).1 ≤ 1 ∧
      ((tpSlLoop cl tp sl price env ts i ongoing).2.1 = false →
        openCount (tpSlLoop cl tp sl price env ts i ongoing).1 = 0) := by
  intro ts
  induction ts with
  | nil =>
    intro i ongoing h1 h2
    exact ⟨by simp [tpSlLoop, openCount], fun _ => by simp [tpSlLoop, openCount]⟩
  | cons t rest ih =>
    intro i ongoing h1 h2
    by_cases hst : t.status = "open"
    · have hrest0 : openCount rest = 0 := by
        rw [openCount_cons, if_pos hst] at h1
        omega
      have hong : ongoing = true := by
        by_contra hc
        have hf : ongoing = false := by
          cases ongoing
          · rfl
          · exact absurd rfl hc
        have := h2 hf
        rw [openCount_cons, if_pos hst] at this
        omega
      rcases hep : t.entry_price with _ | e
      · -- open trade with unknown entry price: skipped by the loop
        simp only [tpSlLoop, if_pos hst, hep]
        rw [tpSlLoop_no_open cl tp sl price env rest (i + 1) ongoing hrest0]
        constructor
        · rw [openCount_cons, if_pos hst, hrest0]
        · intro hc
          rw [hong] at hc
          exact absurd hc (by simp)
      · -- open trade with entry: TP/SL is evaluated
        simp only [tpSlLoop, if_pos hst, hep]
        by_cases hcl : (check_tp_sl cl tp sl price t e (env i)).2.1 = true
        · rw [hcl]
          simp only [if_true]
          rw [tpSlLoop_no_open cl tp sl price env rest (i + 1) false hrest0]
          have hclosed := (check_tp_sl_closed_status cl tp sl price t e (env i)).1 hcl
          have hnot : ¬((check_tp_sl cl tp sl price t e (env i)).1.status = "open") := by
            rw [hclosed]
            simp
          constructor
          · rw [openCount_cons, if_neg hnot, hrest0]
            omega
          · intro _
            rw [openCount_cons, if_neg hnot, hrest0]
        · have hclf : (check_tp_sl cl tp sl price t e (env i)).2.1 = false := by
            cases hc2 : (check_tp_sl cl tp sl price t e (env i)).2.1
            · rfl
            · exact absurd hc2 hcl
          rw [hclf]
          simp only [Bool.false_eq_true, if_false]
          rw [tpSlLoop_no_open cl tp sl price env rest (i + 1) ongoing hrest0]
          have hkeep := (check_tp_sl_closed_status cl tp sl price t e (env i)).2 hclf
          constructor
          · rw [openCount_cons, hrest0]
            split_ifs <;> omega
          · intro hc
            rw [hong] at hc
            exact absurd hc (by simp)
    · -- head not open: untouched
      have h1' : openCount rest ≤ 1 := by
        rw [openCount_cons, if_neg hst] at h1
        omega
      have h2' : ongoing = false → openCount rest = 0 := by
        intro hc
        have := h2 hc
        rw [openCount_cons, if_neg hst] at this
        omega
      obtain ⟨ih1, ih2⟩ := ih (i + 1) ongoing h1' h2'
      simp only [tpSlLoop, if_neg hst]
      constructor
      · rw [openCount_cons, if_neg hst]
        omega
      · intro hc
        rw [openCount_cons, if_neg hst, ih2 hc]

theorem parse_trades_preserves_inv (cl : ClientEnv) (s : StrategyState) (price size : ℚ)
    (timestamp : ℤ) (env : ℕ → TpSlEnv) (r : ParseResult)
    (h : parse_trades cl s price size timestamp env = some r)
    (hinv : StratInv s) : StratInv r.state := by
  rcases hl : s.candles.getLast? with _ | last_candle
  · simp [parse_trades, hl] at h
  · simp only [parse_trades, hl] at h
    split_ifs at h with h1 h2 h3
    · rw [← Option.some_inj.1 h]
      exact tpSlLoop_inv cl s.take_profit s.stop_loss
        ((updCandle last_candle price size).close) env s.trades 0
        s.ongoing_position hinv.1 hinv.2
    · rw [← Option.some_inj.1 h]
      exact hinv
    · rw [← Option.some_inj.1 h]
      exact hinv
    · rw [← Option.some_inj.1 h]
      exact hinv

theorem open_position_preserves_inv (cl : ClientEnv) (s : StrategyState) (contract : Contract)
    (strat_name : String) (signal_result : ℤ) (env : OpenEnv)
    (hinv : StratInv s) (hong : s.ongoing_position = false) :
    StratInv (open_position cl s contract strat_name signal_result env).1 := by
  have h0 : openCount s.trades = 0 := hinv.2 hong
  unfold open_position
  split_ifs
  · exact hinv
  · rcases env.tradeSize with _ | v
    · exact hinv
    · rcases env.orderResult with _ | os
      · exact hinv
      · constructor
        · show openCount (s.trades ++ [_]) ≤ 1
          rw [openCount_append, h0, openCount_cons]
          simp [openCount]
        · intro hc
          exact absurd hc (by simp)
  · rcases env.tradeSize with _ | v
    · exact hinv
    · rcases env.orderResult with _ | os
      · exact hinv
      · constructor
        · show openCount (s.trades ++ [_]) ≤ 1
          rw [openCount_append, h0, openCount_cons]
          simp [openCount]
        · intro hc
          exact absurd hc (by simp)

theorem check_trade_technical_preserves_inv (cl : ClientEnv) (s : StrategyState)
    (contract : Contract) (tick_type : String) (signal_result : ℤ) (env : OpenEnv)
    (hinv : StratInv s) :
    StratInv (check_trade_technical cl s contract tick_type signal_result env).1 := by
  unfold check_trade_technical
  split_ifs with h1 h2
  · exact open_position_preserves_inv cl s contract "Technical" signal_result env hinv h1.2
  · exact hinv
  · exact hinv

theorem check_trade_breakout_preserves_inv (cl : ClientEnv) (s : StrategyState)
    (contract : Contract) (tick_type : String) (signal_result : ℤ) (env : OpenEnv)
    (hinv : StratInv s) :
    StratInv (check_trade_breakout cl s contract tick_type signal_result env).1 := by
  unfold check_trade_breakout
  split_ifs with h1 h2
  · exact open_position_preserves_inv cl s contract "Breakout" signal_result env hinv h1
  · exact hinv
  · exact hinv

theorem stratStep_preserves_inv (cl : ClientEnv) (contract : Contract)
    (s s' : StrategyState) (h : StratStep cl contract s s') (hinv : StratInv s) :
    StratInv s' := by
  cases h with
  | parse price size ts env r hp =>
    exact parse_trades_preserves_inv cl s price size ts env r hp hinv
  | checkTech tick sig env =>
    exact check_trade_technical_preserves_inv cl s contract tick sig env hinv
  | checkBreak tick sig env =>
    exact check_trade_breakout_preserves_inv cl s contract tick sig env hinv

/-- C3: in every state reachable from a freshly constructed strategy
instance by `parse_trades` / `check_trade` calls (with arbitrary client
oracle results), at most one `Trade` in the instance's list has status
`"open"`; and a `check_trade` call of either strategy variant while
`ongoing_position` is true submits no order and returns the state completely
unchanged. -/
theorem single_open_trade_and_noop (cl : ClientEnv) (contract : Contract) (s0 s : StrategyState)
    (hinit : InitStrategy s0) (hr : ReachableStrategy cl contract s0 s) :
    openCount s.trades ≤ 1 ∧
    (∀ (tick_type : String) (signal_result : ℤ) (env : OpenEnv),
      s.ongoing_position = true →
      check_trade_technical cl s contract tick_type signal_result env = (s, []) ∧
      check_trade_breakout cl s contract tick_type signal_result env = (s, [])) := by
  have hinv : StratInv s := by
    induction hr with
    | refl => exact ⟨by simp [hinit.2, openCount], fun _ => by simp [hinit.2, openCount]⟩
    | tail hsteps hstep ih => exact stratStep_preserves_inv cl contract _ _ hstep ih
  refine ⟨hinv.1, ?_⟩
  intro tick_type signal_result env hong
  constructor
  · simp [check_trade_technical, hong]
  · simp [check_trade_breakout, hong]

/-- C3 witness: the initial state (no trades, no ongoing position) is
reachable from itself and satisfies the single-open-trade bound. -/
theorem single_open_trade_and_noop_witness :
    openCount (⟨60000, 10, some 1, some 1, false, [], []⟩ : StrategyState).trades ≤ 1 :=
  (single_open_trade_and_noop ⟨"binance_futures", true⟩
    ⟨"BTCUSDT", "BTC", "USDT", 1 / 1000, false, false, 1⟩
    ⟨60000, 10, some 1, some 1, false, [], []⟩
    ⟨60000, 10, some 1, some 1, false, [], []⟩
    ⟨rfl, rfl⟩ Relation.ReflTransGen.refl).1

/-! ### C4 — TP/SL re-evaluation (corrected: only same-candle ticks) -/

/-- C4 counterexample: an open long trade with entry 100 and take-profit 1%
sees a tick at price 200 — far past the TP trigger (200 ≥ 100 × 1.01) — but
the tick opens a NEW candle (timestamp = T + W), and `parse_trades` submits
no order and leaves the trade `"open"` and `ongoing_position` set, even
though the order-result oracle stood ready to confirm an exit.  The claim's
"every price tick re-evaluates take-profit/stop-loss" is therefore false:
only same-candle ticks do. -/
theorem tp_sl_skipped_on_new_candle_tick :
    (200 : ℚ) ≥ 100 * (1 + 1 / 100) ∧
    parse_trades ⟨"binance_futures", true⟩
      ⟨60000, 10, some 1, some 1, true, [⟨0, 100, 101, 99, 100, 5⟩],
        [⟨0, ⟨"BTCUSDT", "BTC", "USDT", 1 / 1000, false, false, 1⟩, "Technical", "long",
          some 100, "open", 0, 2, 7⟩]⟩
      200 1 60000 (fun _ => ⟨some ⟨8, "filled", 200, 2⟩, none⟩) = some
      ⟨⟨60000, 10, some 1, some 1, true,
          [⟨0, 100, 101, 99, 100, 5⟩, ⟨60000, 200, 200, 200, 200, 1⟩],
          [⟨0, ⟨"BTCUSDT", "BTC", "USDT", 1 / 1000, false, false, 1⟩, "Technical", "long",
            some 100, "open", 0, 2, 7⟩]⟩,
        some "new_candle", []⟩ := by
  constructor
  · norm_num
  · norm_num [parse_trades]

/-- C4 (amended): only ticks on the same-candle path
(`timestamp < T + W`) re-evaluate take-profit/stop-loss, and they do so
against the updated close, which is the tick price: for a long trade with
entry `e`, an exit order is submitted iff `price ≥ e×(1 + tp/100)` (when tp
is set) or `price ≤ e×(1 − sl/100)` (when sl is set), mirrored for a short
trade; any submitted order is an opposing market order (`SELL` for long,
`BUY` for short), and when the order result is non-null the trade's status
becomes `"closed"` and the ongoing-position flag is cleared. -/
theorem tp_sl_same_candle_only_amended (cl : ClientEnv) (s : StrategyState) (price size : ℚ)
    (timestamp : ℤ) (env : ℕ → TpSlEnv) (last_candle : Candle)
    (hlast : s.candles.getLast? = some last_candle)
    (hsame : timestamp < last_candle.timestamp + s.tf_equiv) :
    parse_trades cl s price size timestamp env = some
      ⟨{ s with
          candles := s.candles.dropLast ++ [updCandle last_candle price size],
          trades := (tpSlLoop cl s.take_profit s.stop_loss price env s.trades 0
            s.ongoing_position).1,
          ongoing_position := (tpSlLoop cl s.take_profit s.stop_loss price env s.trades 0
            s.ongoing_position).2.1 },
        some "same_candle",
        (tpSlLoop cl s.take_profit s.stop_loss price env s.trades 0 s.ongoing_position).2.2⟩ ∧
    (∀ (t : Trade) (entry : ℚ) (env1 : TpSlEnv),
      (t.side = "long" →
        ((check_tp_sl cl s.take_profit s.stop_loss price t entry env1).2.2 ≠ [] ↔
          ((∃ v, s.take_profit = some v ∧ price ≥ entry * (1 + v / 100)) ∨
           (∃ v, s.stop_loss = some v ∧ price ≤ entry * (1 - v / 100))))) ∧
      (t.side = "short" →
        ((check_tp_sl cl s.take_profit s.stop_loss price t entry env1).2.2 ≠ [] ↔
          ((∃ v, s.take_profit = some v ∧ price ≤ entry * (1 - v / 100)) ∨
           (∃ v, s.stop_loss = some v ∧ price ≥ entry * (1 + v / 100))))) ∧
      ((check_tp_sl cl s.take_profit s.stop_loss price t entry env1).2.2 = [] ∨
        (check_tp_sl cl s.take_profit s.stop_loss price t entry env1).2.2.map Prod.fst =
          [if t.side = "long" then "SELL" else "BUY"]) ∧
      (∀ os, env1.orderResult = some os →
        (check_tp_sl cl s.take_profit s.stop_loss price t entry env1).2.2 ≠ [] →
        (check_tp_sl cl s.take_profit s.stop_loss price t entry env1).1.status = "closed" ∧
        (check_tp_sl cl s.take_profit s.stop_loss price t entry env1).2.1 = true)) := by
  refine ⟨parse_trades_same_candle cl s price size timestamp env last_candle hlast hsame,
    fun t entry env1 => ⟨?_, ?_, ?_, ?_⟩⟩
  · intro hside
    rcases hor : env1.orderResult with _ | os <;> rcases htp : s.take_profit with _ | v <;>
      rcases hsl : s.stop_loss with _ | w
    · simp [check_tp_sl, hside, hor]
    · by_cases hB : price ≤ entry * (1 - w / 100) <;> simp [check_tp_sl, hside, hor, hB]
    · by_cases hA : price ≥ entry * (1 + v / 100) <;> simp [check_tp_sl, hside, hor, hA]
    · by_cases hA : price ≥ entry * (1 + v / 100) <;>
        by_cases hB : price ≤ entry * (1 - w / 100) <;>
        simp [check_tp_sl, hside, hor, hA, hB]
    · simp [check_tp_sl, hside, hor]
    · by_cases hB : price ≤ entry * (1 - w / 100) <;> simp [check_tp_sl, hside, hor, hB]
    · by_cases hA : price ≥ entry * (1 + v / 100) <;> simp [check_tp_sl, hside, hor, hA]
    · by_cases hA : price ≥ entry * (1 + v / 100) <;>
        by_cases hB : price ≤ entry * (1 - w / 100) <;>
        simp [check_tp_sl, hside, hor, hA, hB]
  · intro hside
    rcases hor : env1.orderResult with _ | os <;> rcases htp : s.take_profit with _ | v <;>
      rcases hsl : s.stop_loss with _ | w
    · simp [check_tp_sl, hside, hor]
    · by_cases hB : price ≥ entry * (1 + w / 100) <;> simp [check_tp_sl, hside, hor, hB]
    · by_cases hA : price ≤ entry * (1 - v / 100) <;> simp [check_tp_sl, hside, hor, hA]
    · by_cases hA : price ≤ entry * (1 - v / 100) <;>
        by_cases hB : price ≥ entry * (1 + w / 100) <;>
        simp [check_tp_sl, hside, hor, hA, hB]
    · simp [check_tp_sl, hside, hor]
    · by_cases hB : price ≥ entry * (1 + w / 100) <;> simp [check_tp_sl, hside, hor, hB]
    · by_cases hA : price ≤ entry * (1 - v / 100) <;> simp [check_tp_sl, hside, hor, hA]
    · by_cases hA : price ≤ entry * (1 - v / 100) <;>
        by_cases hB : price ≥ entry * (1 + w / 100) <;>
        simp [check_tp_sl, hside, hor, hA, hB]
  · rcases hor : env1.orderResult with _ | os <;> simp only [check_tp_sl, hor] <;>
      split_ifs <;> simp
  · intro os hor hne
    simp only [check_tp_sl, hor] at hne ⊢
    split_ifs at hne ⊢ <;> simp_all


/-- C4 (amended) witness: a same-candle tick at price 200 against an open
long trade with entry 100 and tp 1% triggers, and the confirmed order closes
the trade (evaluated through the amended statement's first conjunct). -/
theorem tp_sl_same_candle_only_amended_witness :
    parse_trades ⟨"binance_futures", true⟩
      ⟨60000, 10, some 1, some 1, true, [⟨0, 100, 101, 99, 100, 5⟩],
        [⟨0, ⟨"BTCUSDT", "BTC", "USDT", 1 / 1000, false, false, 1⟩, "Technical", "long",
          some 100, "open", 0, 2, 7⟩]⟩
      200 1 30000 (fun _ => ⟨some ⟨8, "filled", 200, 2⟩, none⟩) = some
      ⟨{ (⟨60000, 10, some 1, some 1, true, [⟨0, 100, 101, 99, 100, 5⟩],
          [⟨0, ⟨"BTCUSDT", "BTC", "USDT", 1 / 1000, false, false, 1⟩, "Technical", "long",
            some 100, "open", 0, 2, 7⟩]⟩ : StrategyState) with
          candles := [⟨0, 100, 101, 99, 100, 5⟩].dropLast ++
            [updCandle ⟨0, 100, 101, 99, 100, 5⟩ 200 1],
          trades := (tpSlLoop ⟨"binance_futures", true⟩ (some 1) (some 1) 200
            (fun _ => ⟨some ⟨8, "filled", 200, 2⟩, none⟩)
            [⟨0, ⟨"BTCUSDT", "BTC", "USDT", 1 / 1000, false, false, 1⟩, "Technical", "long",
              some 100, "open", 0, 2, 7⟩] 0 true).1,
          ongoing_position := (tpSlLoop ⟨"binance_futures", true⟩ (some 1) (some 1) 200
            (fun _ => ⟨some ⟨8, "filled", 200, 2⟩, none⟩)
            [⟨0, ⟨"BTCUSDT", "BTC", "USDT", 1 / 1000, false, false, 1⟩, "Technical", "long",
              some 100, "open", 0, 2, 7⟩] 0 true).2.1 },
        some "same_candle",
        (tpSlLoop ⟨"binance_futures", true⟩ (some 1) (some 1) 200
          (fun _ => ⟨some ⟨8, "filled", 200, 2⟩, none⟩)
          [⟨0, ⟨"BTCUSDT", "BTC", "USDT", 1 / 1000, false, false, 1⟩, "Technical", "long",
            some 100, "open", 0, 2, 7⟩] 0 true).2.2⟩ :=
  (tp_sl_same_candle_only_amended ⟨"binance_futures", true⟩
    ⟨60000, 10, some 1, some 1, true, [⟨0, 100, 101, 99, 100, 5⟩],
      [⟨0, ⟨"BTCUSDT", "BTC", "USDT", 1 / 1000, false, false, 1⟩, "Technical", "long",
        some 100, "open", 0, 2, 7⟩]⟩
    200 1 30000 (fun _ => ⟨some ⟨8, "filled", 200, 2⟩, none⟩)
    ⟨0, 100, 101, 99, 100, 5⟩ (by simp) (by norm_num)).1

end Crypto
